import Mathlib

/-!
Verification development for the Emailscraper backend's campaign dispatch
engine.  The definitions below are shallow embeddings of the TypeScript
source: `EmailService` (src/email/email.service.ts), `CampaignService`
(campaign service file), and `TrackingService` (tracking service file).
Strings are modelled as `List Char`; machine-side maps as association
lists; MongoDB documents as Lean structures; external transport outcomes
as a boolean oracle indexed by attempt number.
-/

/-! ## Tracking tokens

The dispatch loop builds a tracking id by the template literal
`campaignId ++ "_" ++ email ++ "_" ++ Date.now()`, and
`TrackingService.parseTrackingId` splits on the underscore, requires at
least three segments, and returns the first two. -/

/-- Splitting a character list on a delimiter, with JavaScript
`String.prototype.split` semantics: every occurrence separates, empty
segments are kept, and the result is never empty. -/
def splitOnChar (d : Char) : List Char → List (List Char)
  | [] => [[]]
  | c :: cs =>
    match splitOnChar d cs with
    | [] => [[]]
    | t :: ts => if c = d then [] :: t :: ts else (c :: t) :: ts

/-- Decimal digit to character, as in JavaScript number-to-string
conversion (only digits 0–9 are produced). -/
def digitToChar (n : Nat) : Char :=
  if n = 0 then '0' else if n = 1 then '1' else if n = 2 then '2'
  else if n = 3 then '3' else if n = 4 then '4' else if n = 5 then '5'
  else if n = 6 then '6' else if n = 7 then '7' else if n = 8 then '8'
  else '9'

/-- Fuel-driven helper for `decimalChars` (the fuel `n` itself bounds the
number of divisions by ten). -/
def decimalCharsGo : Nat → Nat → List Char → List Char
  | 0, n, acc => digitToChar n :: acc
  | fuel + 1, n, acc =>
    if n < 10 then digitToChar n :: acc
    else decimalCharsGo fuel (n / 10) (digitToChar (n % 10) :: acc)

/-- Decimal rendering of a natural number, as JavaScript renders
`Date.now()` inside a template literal. -/
def decimalChars (n : Nat) : List Char :=
  decimalCharsGo n n []

/-- The tracking id built by the campaign dispatch loop:
`{campaignId}_{recipientAddress}_{epochMillis}`. -/
def formatTrackingId (campaignId addr : List Char) (epochMillis : Nat) : List Char :=
  campaignId ++ '_' :: (addr ++ '_' :: decimalChars epochMillis)

/-- `TrackingService.parseTrackingId`: split the id on the underscore;
if there are fewer than three parts, throw (modelled as `Except.error`);
otherwise return the first two parts. -/
def parseTrackingId (trackingId : List Char) : Except Unit (List Char × List Char) :=
  match splitOnChar '_' trackingId with
  | p0 :: p1 :: _ :: _ => .ok (p0, p1)
  | _ => .error ()

/-- The placeholder literal for a key: `{{key}}`. -/
def placeholder (key : List Char) : List Char :=
  '{' :: '{' :: (key ++ ['}', '}'])

/-- Substring occurrence test (used to state which placeholders survive
personalization). -/
def hasSubstr (pat : List Char) : List Char → Bool
  | [] => pat.isEmpty
  | c :: cs => pat.isPrefixOf (c :: cs) || hasSubstr pat cs

/-! ## Recipient and campaign status enums (Mongo schema enums) -/

/-- Per-recipient status enum from the campaign-email schema. -/
inductive RecipientStatus
  | pending | sent | delivered | opened | clicked | replied | bounced | failed
deriving DecidableEq, Repr

/-- Campaign status enum from the campaign schema. -/
inductive CampaignStatus
  | draft | scheduled | running | paused | completed | failed
deriving DecidableEq, Repr

/-! ## Tracking ingest (`TrackingService`)

`trackOpen` parses the token, then issues one `updateOne` whose update
document is `{ $Inc: {emailsOpened, emails.$.openCount}, $set:
{emails.$.openedAt, emails.$.status: 'opened'} }`.  `$Inc` (capital I) is
not a MongoDB update operator, so the server rejects the whole update;
the surrounding try/catch logs the error and returns `success: false`.
`trackingClick` uses the valid operators `$inc`/`$set`/`$addToSet`; its
paths `emails.$.clickLinks` and `email.$.clickLinks` are not in the
schema and are stripped by mongoose strict mode. -/

/-- One element of the campaign's `emails` array as the tracking service
sees it. -/
structure TrackEmail where
  email : List Char
  status : RecipientStatus
  openCount : Nat
  clickCount : Nat
  openedAtSet : Bool := false
  clickedAtSet : Bool := false
deriving DecidableEq, Repr

/-- The campaign document fields the tracking service touches. -/
structure TrackCampaign where
  id : List Char
  emails : List TrackEmail
  emailsOpened : Nat
  emailsClicked : Nat
deriving DecidableEq, Repr

/-- Result object returned by the tracking operations. -/
structure TrackResult where
  success : Bool
deriving DecidableEq, Repr

/-- MongoDB update-operator validation: the server recognises only the
documented `$`-operators; anything else makes the whole `updateOne`
fail.  (Only the operators appearing in this service are listed.) -/
def validUpdateOperator (opName : List Char) : Bool :=
  opName = ['i', 'n', 'c'] ∨ opName = ['s', 'e', 't'] ∨
    opName = ['a', 'd', 'd', 'T', 'o', 'S', 'e', 't']

/-- The `$`-operator names of the update document in `trackOpen`, exactly
as written in the source: `$Inc` (capital I — a typo) and `$set`. -/
def trackOpenOperators : List (List Char) :=
  [['I', 'n', 'c'], ['s', 'e', 't']]

/-- Update the first element of the array whose `email` matches, as the
positional `$` operator does with filter `'emails.email': email`. -/
def updateFirstTrackEmail (l : List TrackEmail) (addr : List Char)
    (f : TrackEmail → TrackEmail) : List TrackEmail :=
  match l with
  | [] => []
  | e :: rest =>
    if e.email = addr then f e :: rest else e :: updateFirstTrackEmail rest addr f

/-- The effect `trackOpen`'s update document would have if its operators
were valid: `$inc` both counters, `$set` `openedAt` and set `status` to
`opened` unconditionally (no progression guard appears in the source). -/
def applyTrackOpenUpdate (db : TrackCampaign) (cid addr : List Char) : TrackCampaign :=
  if db.id = cid ∧ db.emails.any (fun e => e.email = addr) then
    { db with
      emailsOpened := db.emailsOpened + 1,
      emails := updateFirstTrackEmail db.emails addr (fun e =>
        { e with openCount := e.openCount + 1, openedAtSet := true,
                 status := .opened }) }
  else db

/-- `TrackingService.trackOpen`: parse the token (throw on fewer than
three segments), then `updateOne` with the `$Inc`/`$set` document; any
throw is caught, logged, and turned into `success: false`. -/
def trackOpen (db : TrackCampaign) (trackingId : List Char) :
    TrackResult × TrackCampaign :=
  match parseTrackingId trackingId with
  | .error _ => ({ success := false }, db)
  | .ok (cid, addr) =>
    if trackOpenOperators.all validUpdateOperator then
      ({ success := true }, applyTrackOpenUpdate db cid addr)
    else
      ({ success := false }, db)

/-- The effect of `trackingClick`'s update document: `$inc emailsClicked`
and `$set emails.$.clickedAt` apply; the `clickLinks` paths (one of them
also misspelled `email.$`) are not in the schema and are stripped, and
neither `clickCount` nor `status` is touched by this update. -/
def applyTrackClickUpdate (db : TrackCampaign) (cid addr : List Char) : TrackCampaign :=
  if db.id = cid ∧ db.emails.any (fun e => e.email = addr) then
    { db with
      emailsClicked := db.emailsClicked + 1,
      emails := updateFirstTrackEmail db.emails addr (fun e =>
        { e with clickedAtSet := true }) }
  else db

/-- `TrackingService.trackingClick`: parse the token, then `updateOne`
with valid operators; parse failure is caught and returned as
`success: false`. -/
def trackingClick (db : TrackCampaign) (trackingId _link : List Char) :
    TrackResult × TrackCampaign :=
  match parseTrackingId trackingId with
  | .error _ => ({ success := false }, db)
  | .ok (cid, addr) => ({ success := true }, applyTrackClickUpdate db cid addr)

/-- Fixture: a campaign with one tracked recipient whose status has
already advanced to `clicked` and whose open count is 5. -/
def trackFixture : TrackCampaign :=
  { id := ['c', '1'],
    emails := [{ email := ['a', '@', 'b'], status := .clicked,
                 openCount := 5, clickCount := 0 }],
    emailsOpened := 0,
    emailsClicked := 0 }

/-- A tracking id for the fixture's recipient, in the format the
dispatch loop produces. -/
def trackFixtureId : List Char :=
  formatTrackingId ['c', '1'] ['a', '@', 'b'] 111

/-! ## Email sending and rate limiting (`EmailService`)

`sendEmail` loads the SMTP config fresh from the database, runs
`checkAndUpdateRateLimit`, obtains a transporter, sends, and updates
statistics.  Every throw inside the `try` — including the rate-limit
denials, which are thrown as errors — lands in the one `catch` block,
which updates the failure statistics and returns a failed result object
(it does not rethrow).  Time is modelled by an accounting-day number and
an hour-of-day; the transport outcome and message id by parameters. -/

/-- Accounting clock: calendar day number and hour of day. -/
structure Time where
  day : Nat
  hour : Nat
deriving DecidableEq, Repr

/-- The SMTP-config fields the rate limiter and statistics code read and
write (the connection fields play no part in the modelled logic). -/
structure SMTPConfig where
  dailyLimit : Nat
  emailsSentToday : Nat
  lastResetDate : Option Nat
  totalEmailsSent : Nat
  emailsFailed : Nat
  isActive : Bool
  hourlyRateLimit : Nat
deriving DecidableEq, Repr

/-- One value of the process-wide `dailyStats` map. -/
structure HourStats where
  sent : Nat
  failed : Nat
deriving DecidableEq, Repr

/-- The process-wide `dailyStats` map keyed by hour of day (the source
key is `configId:hour`; a single config is in scope). -/
abbrev Buckets := List (Nat × HourStats)

/-- `dailyStats.get(key)` with the source's fallback to zero counters. -/
def getBucket (stats : Buckets) (h : Nat) : HourStats :=
  match stats with
  | [] => { sent := 0, failed := 0 }
  | (k, v) :: rest => if k = h then v else getBucket rest h

/-- `dailyStats.set(key, value)`. -/
def setBucket (stats : Buckets) (h : Nat) (v : HourStats) : Buckets :=
  match stats with
  | [] => [(h, v)]
  | (k, w) :: rest => if k = h then (h, v) :: rest else (k, w) :: setBucket rest h v

/-- The error reasons a send attempt can record. -/
inductive SendErr
  | configInactive | dailyLimitExceeded | hourlyLimitExceeded | transportError
deriving DecidableEq, Repr

/-- The result object of `EmailService.sendEmail`. -/
structure SendResult where
  success : Bool
  messageId : Option Nat
  error : Option SendErr
  status : RecipientStatus
deriving DecidableEq, Repr

/-- `EmailService.checkAndUpdateRateLimit`.  If `lastResetDate` (default:
today's midnight) is not today, an `updateOne` writes `emailsSentToday
:= 0, lastResetDate := now` to the database — but the in-memory `config`
object whose fields the subsequent comparisons read is not refreshed.
Returns the database state after the possible reset, and the denial
thrown (if any): daily when `dailyLimit > 0` and the in-memory
`emailsSentToday ≥ dailyLimit`, else hourly when `hourlyRateLimit > 0`
and the current hour bucket's `sent ≥ hourlyRateLimit`. -/
def checkAndUpdateRateLimit (config : SMTPConfig) (stats : Buckets) (now : Time) :
    SMTPConfig × Option SendErr :=
  let lastReset := config.lastResetDate.getD now.day
  let db :=
    if lastReset ≠ now.day then
      { config with emailsSentToday := 0, lastResetDate := some now.day }
    else config
  if 0 < config.dailyLimit ∧ config.dailyLimit ≤ config.emailsSentToday then
    (db, some .dailyLimitExceeded)
  else if 0 < config.hourlyRateLimit ∧
      config.hourlyRateLimit ≤ (getBucket stats now.hour).sent then
    (db, some .hourlyLimitExceeded)
  else
    (db, none)

/-- `EmailService.updateSMTPStats`: `$inc emailsSentToday` and
`totalEmailsSent` by 1 always, plus `emailsFailed` by 1 on failure. -/
def updateSMTPStats (config : SMTPConfig) (success : Bool) : SMTPConfig :=
  { config with
    emailsSentToday := config.emailsSentToday + 1,
    totalEmailsSent := config.totalEmailsSent + 1,
    emailsFailed := if success then config.emailsFailed else config.emailsFailed + 1 }

/-- `EmailService.updateDailyStats`: bump the current hour bucket's
`sent` on success, `failed` on failure. -/
def updateDailyStats (stats : Buckets) (now : Time) (success : Bool) : Buckets :=
  let st := getBucket stats now.hour
  setBucket stats now.hour
    (if success then { st with sent := st.sent + 1 }
     else { st with failed := st.failed + 1 })

/-- `EmailService.sendEmail` on a config that exists in the database.
The `transportOk` parameter is the transport outcome of this attempt and
`msgId` the message id the transporter would assign.  An inactive config,
a rate-limit denial, and a transport error all reach the `catch` block:
failure statistics are updated and a failed result is returned. -/
def sendEmail (config : SMTPConfig) (stats : Buckets) (now : Time)
    (transportOk : Bool) (msgId : Nat) : SendResult × SMTPConfig × Buckets :=
  if ¬ config.isActive then
    ({ success := false, messageId := none, error := some .configInactive,
       status := .failed },
     updateSMTPStats config false, updateDailyStats stats now false)
  else
    match checkAndUpdateRateLimit config stats now with
    | (db, some e) =>
      ({ success := false, messageId := none, error := some e, status := .failed },
       updateSMTPStats db false, updateDailyStats stats now false)
    | (db, none) =>
      if transportOk then
        ({ success := true, messageId := some msgId, error := none, status := .sent },
         updateSMTPStats db true, updateDailyStats stats now true)
      else
        ({ success := false, messageId := none, error := some .transportError,
           status := .failed },
         updateSMTPStats db false, updateDailyStats stats now false)

/-! ## Campaign dispatch (`CampaignService.processCampaignEmails`)

The pass filters the in-memory campaign snapshot for `pending` emails;
if none, it marks the campaign completed and returns.  Otherwise it
walks the selection in order: when the per-pass counter reaches
`maxEmailsPerHour` (default 100 — `settings.maxEmailsPerHour || 100`) it
schedules `processCampaignEmails(campaign)` for the next hour — the
continuation closes over the same stale in-memory `campaign` object —
and breaks.  Each processed email is sent via `sendEmail` (which never
throws) and recorded with one `updateOne`; afterwards the campaign is
re-loaded and marked completed if no stored email is still `pending`.
Recipient addresses are modelled as abstract identifiers (`Nat`)
compared for equality, as the Mongo filter `'emails.email': email`
compares address strings; the inter-send `delayBetweenEmails` sleep has
no modelled effect. -/

/-- One element of the campaign's `emails` array as the dispatch loop
reads and writes it. -/
structure EmailEntry where
  addr : Nat
  status : RecipientStatus
  sentAtSet : Bool := false
  messageId : Option Nat := none
  error : Option SendErr := none
deriving DecidableEq, Repr

/-- `campaign.settings`; a zero value stands for an absent (falsy)
setting, exactly as the source's `||`-defaults treat it. -/
structure CampaignSettings where
  delayBetweenEmails : Nat := 0
  maxEmailsPerHour : Nat := 0
deriving DecidableEq, Repr

/-- The campaign-document fields the dispatch loop reads and writes. -/
structure CampaignDoc where
  emails : List EmailEntry
  status : CampaignStatus
  totalEmails : Nat
  emailsSent : Nat
  emailsDelivered : Nat
  emailsFailed : Nat
  settings : CampaignSettings
  completedAt : Bool := false
  lastEmailSentAt : Bool := false
deriving DecidableEq, Repr

/-- The database and process state a dispatch pass reads and writes: the
stored campaign, the stored SMTP config, and the in-memory hour
buckets. -/
structure DispatchWorld where
  campaign : CampaignDoc
  smtp : SMTPConfig
  stats : Buckets
deriving DecidableEq

/-- Result of one dispatch pass: final state, the addresses handed to
`sendEmail` in order, and the snapshot captured by a scheduled
continuation (if the hourly cap was hit). -/
structure PassResult where
  world : DispatchWorld
  attempts : List Nat
  scheduled : Option CampaignDoc
deriving DecidableEq

/-- Positional update of the first array element whose address matches,
as `updateOne({_id, 'emails.email': email}, {'emails.$': ...})` does. -/
def updateEmailInList (l : List EmailEntry) (a : Nat)
    (f : EmailEntry → EmailEntry) : List EmailEntry :=
  match l with
  | [] => []
  | e :: rest =>
    if e.addr = a then f e :: rest else e :: updateEmailInList rest a f

/-- The per-email `updateOne` of the dispatch loop: if the filter matches
(some element has the address), set the element's status to `sent` or
`failed` by `result.success`, set `sentAt`, set `messageId`/`error`
(mongoose strips `undefined` values from `$set`, leaving the old field)
and `$inc emailsSent` plus `emailsDelivered` or `emailsFailed`; the
plain `lastEmailSentAt` key is folded into `$set` by mongoose.  If no
element matches, the filter matches no document and nothing changes. -/
def recordSendOutcome (db : CampaignDoc) (a : Nat) (res : SendResult) : CampaignDoc :=
  if db.emails.any (fun e => e.addr = a) then
    { db with
      emails := updateEmailInList db.emails a (fun e =>
        { e with
          status := if res.success then .sent else .failed,
          sentAtSet := true,
          messageId := match res.messageId with
            | some m => some m
            | none => e.messageId,
          error := match res.error with
            | some x => some x
            | none => e.error }),
      emailsSent := db.emailsSent + 1,
      emailsDelivered := if res.success then db.emailsDelivered + 1
        else db.emailsDelivered,
      emailsFailed := if res.success then db.emailsFailed
        else db.emailsFailed + 1,
      lastEmailSentAt := true }
  else db

/-- The `for` loop of `processCampaignEmails` over the selected pending
emails: `sentThisHour` is the per-pass counter, `idx` the attempt index
feeding the transport oracle `tr` (and standing in for the message id),
`acc` the reversed list of addresses attempted so far. -/
def runPending (snap : CampaignDoc) (cap : Nat) (now : Time) (tr : Nat → Bool) :
    List EmailEntry → DispatchWorld → Nat → Nat → List Nat → PassResult
  | [], w, _, _, acc =>
    { world := w, attempts := acc.reverse, scheduled := none }
  | e :: rest, w, sentThisHour, idx, acc =>
    if cap ≤ sentThisHour then
      { world := w, attempts := acc.reverse, scheduled := some snap }
    else
      let step := sendEmail w.smtp w.stats now (tr idx) idx
      let db := recordSendOutcome w.campaign e.addr step.1
      runPending snap cap now tr rest
        { campaign := db, smtp := step.2.1, stats := step.2.2 }
        (sentThisHour + 1) (idx + 1) (e.addr :: acc)

/-- `CampaignService.processCampaignEmails` on the in-memory snapshot
`snap` against world state `w` (on entry from `startCampaign` or
`resumeCampaign` the snapshot is the freshly loaded document, so `snap =
w.campaign`; the continuation scheduled on the hourly cap re-enters with
the stale snapshot it closed over).  Template personalization feeds only
the message content, which the transport oracle abstracts. -/
def processCampaignEmails (snap : CampaignDoc) (w : DispatchWorld) (now : Time)
    (tr : Nat → Bool) (idx : Nat) : PassResult :=
  let pendingEmails := snap.emails.filter (fun e => e.status == .pending)
  if pendingEmails.length = 0 then
    { world := { w with campaign :=
        { w.campaign with status := .completed, completedAt := true } },
      attempts := [], scheduled := none }
  else
    let cap := if snap.settings.maxEmailsPerHour = 0 then 100
      else snap.settings.maxEmailsPerHour
    let r := runPending snap cap now tr pendingEmails w 0 idx []
    let remaining :=
      (r.world.campaign.emails.filter (fun e => e.status == .pending)).length
    if remaining = 0 then
      { r with world := { r.world with campaign :=
          { r.world.campaign with status := .completed, completedAt := true } } }
    else r

/-- `CampaignService.pauseCampaign`: the `findOneAndUpdate` filter
requires status `running`; on match the status becomes `paused`,
otherwise an HTTP error is thrown (modelled as `Except.error`). -/
def pauseCampaign (db : CampaignDoc) : Except Unit CampaignDoc :=
  if db.status = .running then .ok { db with status := .paused }
  else .error ()

/-- Number of entries with a given status (used to relate the aggregate
counters to the recipient-level states). -/
def countStatus (s : RecipientStatus) (l : List EmailEntry) : Nat :=
  (l.filter (fun e => e.status == s)).length

/-! ## Concrete scenario fixtures -/

/-- An active config with no limits enabled (both limit checks are
guarded by `limit > 0`). -/
def unlimitedSmtp : SMTPConfig :=
  { dailyLimit := 0, emailsSentToday := 0, lastResetDate := some 0,
    totalEmailsSent := 0, emailsFailed := 0, isActive := true,
    hourlyRateLimit := 0 }

/-- C1 fixture: provider identity with `dailyLimit = 2`, counters fresh. -/
def dailyTwoSmtp : SMTPConfig :=
  { dailyLimit := 2, emailsSentToday := 0, lastResetDate := some 0,
    totalEmailsSent := 0, emailsFailed := 0, isActive := true,
    hourlyRateLimit := 0 }

/-- C1 fixture: running campaign with three pending recipients. -/
def threePendingCampaign : CampaignDoc :=
  { emails := [{ addr := 0, status := .pending }, { addr := 1, status := .pending },
               { addr := 2, status := .pending }],
    status := .running, totalEmails := 3, emailsSent := 0,
    emailsDelivered := 0, emailsFailed := 0, settings := {} }

/-- The C1 pass: fresh snapshot, all transport sends succeed. -/
def dailyLimitRun : PassResult :=
  processCampaignEmails threePendingCampaign
    { campaign := threePendingCampaign, smtp := dailyTwoSmtp, stats := [] }
    { day := 0, hour := 0 } (fun _ => true) 0

/-- C2 fixture: running campaign with two pending recipients and
`maxEmailsPerHour = 1`. -/
def hourlyCapCampaign : CampaignDoc :=
  { emails := [{ addr := 0, status := .pending }, { addr := 1, status := .pending }],
    status := .running, totalEmails := 2, emailsSent := 0,
    emailsDelivered := 0, emailsFailed := 0,
    settings := { maxEmailsPerHour := 1 } }

/-- The C2 first pass: recipient 0 is sent, then the hourly cap schedules
a continuation closing over the stale snapshot. -/
def hourlyCapPassOne : PassResult :=
  processCampaignEmails hourlyCapCampaign
    { campaign := hourlyCapCampaign, smtp := unlimitedSmtp, stats := [] }
    { day := 0, hour := 0 } (fun _ => true) 0

/-- The C2 continuation an hour later: `setTimeout(() =>
this.processCampaignEmails(campaign), ...)` re-enters with the stale
in-memory snapshot, not a fresh database read. -/
def hourlyCapPassTwo : PassResult :=
  processCampaignEmails hourlyCapCampaign hourlyCapPassOne.world
    { day := 0, hour := 1 } (fun _ => true) 1

/-- C3 fixture: running campaign with two pending recipients and default
settings. -/
def twoPendingCampaign : CampaignDoc :=
  { emails := [{ addr := 0, status := .pending }, { addr := 1, status := .pending }],
    status := .running, totalEmails := 2, emailsSent := 0,
    emailsDelivered := 0, emailsFailed := 0, settings := {} }

/-- The C3 pass: the snapshot was taken while `running`; a pause lands in
the database before the loop proceeds, so the stored status is `paused`
for the whole pass. -/
def pausedMidBatchRun : PassResult :=
  processCampaignEmails twoPendingCampaign
    { campaign := { twoPendingCampaign with status := .paused },
      smtp := unlimitedSmtp, stats := [] }
    { day := 0, hour := 0 } (fun _ => true) 0

/-- C4 fixture: running campaign with a single pending recipient. -/
def onePendingCampaign : CampaignDoc :=
  { emails := [{ addr := 0, status := .pending }],
    status := .running, totalEmails := 1, emailsSent := 0,
    emailsDelivered := 0, emailsFailed := 0, settings := {} }

/-- The C4 pass: the only transport send fails. -/
def oneFailedRun : PassResult :=
  processCampaignEmails onePendingCampaign
    { campaign := onePendingCampaign, smtp := unlimitedSmtp, stats := [] }
    { day := 0, hour := 0 } (fun _ => false) 0

/-- C5 fixture: yesterday (day 4) the config maxed out its daily limit;
the next attempt happens on day 5. -/
def maxedYesterdaySmtp : SMTPConfig :=
  { dailyLimit := 2, emailsSentToday := 2, lastResetDate := some 4,
    totalEmailsSent := 10, emailsFailed := 0, isActive := true,
    hourlyRateLimit := 0 }

/-- C6 fixture: a config that has already reached its daily limit
today. -/
def atDailyLimitSmtp : SMTPConfig :=
  { dailyLimit := 1, emailsSentToday := 1, lastResetDate := some 0,
    totalEmailsSent := 1, emailsFailed := 0, isActive := true,
    hourlyRateLimit := 0 }

/-- Overwrite the campaign status of a pass result (helper used to state
that the dispatch loop never reads the stored campaign status). -/
def withCampaignStatus (r : PassResult) (s : CampaignStatus) : PassResult :=
  { r with world := { r.world with
      campaign := { r.world.campaign with status := s } } }

/-- A world holding the two-pending fixture (used as the C4 witness
scenario), and a transport where only the first attempt succeeds. -/
def mixedWorld : DispatchWorld :=
  { campaign := twoPendingCampaign, smtp := unlimitedSmtp, stats := [] }

/-- Transport oracle: attempt 0 succeeds, later attempts fail. -/
def firstOnlyTr : Nat → Bool := fun i => i == 0

/-! ## Template personalization

`CampaignService.personalizeTemplate` iterates over the entries of the
variable mapping and, for each entry `(key, value)`, runs
`result.replace(new RegExp(escapeRegExp('{{key}}'), 'g'), value || '')`:
a single left-to-right pass replacing every non-overlapping occurrence
of the literal placeholder.  JavaScript replacement strings are not
inserted verbatim: the ECMAScript GetSubstitution rules expand the
dollar patterns in `value` (a doubled dollar inserts a dollar, dollar
ampersand the matched substring, dollar followed by the backquote
character the part of the subject before the match, dollar followed by
the quote character the part after it; dollar-digit and dollar-left-angle
are copied literally because the escaped pattern has no capture groups).
`EmailService.personalizeTemplate` runs the same per-string loop.  Keys
absent from the mapping are never visited by the loop. -/

/-- The backquote character (code 96), special after a dollar in a
JavaScript replacement string. -/
def backquoteChar : Char := Char.ofNat 96

/-- The quote character (code 39), special after a dollar in a
JavaScript replacement string. -/
def quoteChar : Char := Char.ofNat 39

/-- ECMAScript GetSubstitution for a string replacement `val` of a match
of the (group-free) escaped literal pattern: `matched` is the matched
substring, `before` the part of the subject preceding the match, `after`
the part following it. -/
def expandReplacement (matched before after : List Char) : List Char → List Char
  | [] => []
  | [c] => [c]
  | c :: d :: rest =>
    if c = '$' then
      if d = '$' then '$' :: expandReplacement matched before after rest
      else if d = '&' then matched ++ expandReplacement matched before after rest
      else if d = backquoteChar then before ++ expandReplacement matched before after rest
      else if d = quoteChar then after ++ expandReplacement matched before after rest
      else '$' :: expandReplacement matched before after (d :: rest)
    else c :: expandReplacement matched before after (d :: rest)

/-- Fuel-driven single left-to-right pass of the global replace: `pre`
is the portion of the original subject already scanned (the
replacement-string expansion reads it), the fuel (initially the subject
length) bounds the recursion. -/
def replaceAllGo (pat val : List Char) : Nat → List Char → List Char → List Char
  | _, _, [] => []
  | 0, _, s => s
  | fuel + 1, pre, c :: cs =>
    if pat.isPrefixOf (c :: cs) ∧ pat ≠ [] then
      expandReplacement pat pre (cs.drop (pat.length - 1)) val ++
        replaceAllGo pat val fuel (pre ++ pat) (cs.drop (pat.length - 1))
    else
      c :: replaceAllGo pat val fuel (pre ++ [c]) cs

/-- The replace pass continued at a position where `pre` has already
been scanned. -/
def replaceFrom (pat val pre s : List Char) : List Char :=
  replaceAllGo pat val s.length pre s

/-- Replace every non-overlapping occurrence of `pat` in `s` by the
replacement string `val`, left to right in one pass, with JavaScript
replacement-string semantics: `s.replace(new RegExp(escapeRegExp(pat),
'g'), val)`. -/
def replaceAll (pat val s : List Char) : List Char :=
  replaceFrom pat val [] s

/-- `CampaignService.personalizeTemplate`: fold over the entries of the
variable mapping, replacing all occurrences of each entry's placeholder
by its value.  (An empty value replaces with the empty string, which is
also what the source's `value || ''` produces.) -/
def personalizeTemplate (template : List Char)
    (vars : List (List Char × List Char)) : List Char :=
  vars.foldl (fun acc kv => replaceAll (placeholder kv.1) kv.2 acc) template

/-- A template shape: literal segments interleaved with `{{key}}`
placeholders. -/
inductive TemplatePiece
  | lit (s : List Char)
  | hole (key : List Char)
deriving DecidableEq, Repr

/-- Render a template shape to its string. -/
def renderPieces : List TemplatePiece → List Char
  | [] => []
  | .lit s :: rest => s ++ renderPieces rest
  | .hole k :: rest => placeholder k ++ renderPieces rest

/-- First binding of a key in the mapping (`variables[key]`; JavaScript
object keys are unique, so at most one binding exists in practice). -/
def lookupVar (k : List Char) : List (List Char × List Char) → Option (List Char)
  | [] => none
  | kv :: rest => if kv.1 = k then some kv.2 else lookupVar k rest

/-- Substitution of one mapping entry on one template piece. -/
def substOnePiece (k v : List Char) : TemplatePiece → TemplatePiece
  | .lit s => .lit s
  | .hole k' => if k' = k then .lit v else .hole k'

/-- Pointwise effect of the whole mapping on a template piece: a hole
whose key is present becomes the (first) bound value, everything else is
unchanged. -/
def applyMapping (vars : List (List Char × List Char)) : TemplatePiece → TemplatePiece
  | .lit s => .lit s
  | .hole k =>
    match lookupVar k vars with
    | some v => .lit v
    | none => .hole k

/-- Well-formedness of a template piece for unambiguous placeholder
parsing: literal segments contain no opening brace, keys contain no
brace at all. -/
def PieceOk : TemplatePiece → Prop
  | .lit s => '{' ∉ s
  | .hole k => '{' ∉ k ∧ '}' ∉ k

instance : DecidablePred PieceOk := by
  intro p
  cases p <;> simp only [PieceOk] <;> infer_instance

theorem splitOnChar_ne_nil (d : Char) (s : List Char) : splitOnChar d s ≠ [] := by
  cases s with
  | nil => simp [splitOnChar]
  | cons c cs =>
    unfold splitOnChar
    split
    · simp
    · split <;> simp

theorem splitOnChar_append_delim (d : Char) (a r : List Char) (ha : d ∉ a) :
    splitOnChar d (a ++ d :: r) = a :: splitOnChar d r := by
  induction a with
  | nil =>
    simp only [List.nil_append, splitOnChar]
    rcases h : splitOnChar d r with _ | ⟨t, ts⟩
    · exact absurd h (splitOnChar_ne_nil d r)
    · simp
  | cons c cs ih =>
    have hc : c ≠ d := fun hcd => ha (hcd ▸ List.mem_cons_self c cs)
    have ih' := ih (fun hm => ha (List.mem_cons_of_mem c hm))
    simp only [List.cons_append, splitOnChar]
    rw [List.append_eq, ih']
    simp [hc]

/-- C7: Tracking-token round-trip. For every campaign id and recipient
address free of the underscore delimiter, parsing the formatted token
`{campaignId}_{address}_{epochMillis}` (split on the underscore, take the
first two segments) yields exactly the campaign id and the address; the
timestamp segment is not needed for parsing correctness. -/
theorem C7_theorem (campaignId addr : List Char) (epochMillis : Nat)
    (hc : '_' ∉ campaignId) (ha : '_' ∉ addr) :
    parseTrackingId (formatTrackingId campaignId addr epochMillis) =
      .ok (campaignId, addr) := by
  unfold parseTrackingId formatTrackingId
  rw [splitOnChar_append_delim '_' campaignId _ hc,
      splitOnChar_append_delim '_' addr _ ha]
  rcases h : splitOnChar '_' (decimalChars epochMillis) with _ | ⟨t, ts⟩
  · exact absurd h (splitOnChar_ne_nil _ _)
  · rfl

/-- Witness for C7 at a concrete token: campaign id `c1`, address `a@b`,
timestamp 123. -/
theorem C7_witness :
    ('_' ∉ ['c', '1'] ∧ '_' ∉ ['a', '@', 'b']) ∧
      parseTrackingId (formatTrackingId ['c', '1'] ['a', '@', 'b'] 123) =
        .ok (['c', '1'], ['a', '@', 'b']) :=
  ⟨⟨by decide, by decide⟩, C7_theorem ['c', '1'] ['a', '@', 'b'] 123 (by decide) (by decide)⟩

theorem isPrefixOf_self_append (pat r : List Char) :
    pat.isPrefixOf (pat ++ r) = true := by
  simp [List.isPrefixOf_iff_prefix, List.prefix_append]

theorem eq_lbrace_of_isPrefixOf (p : List Char) (c : Char) (cs : List Char)
    (h : List.isPrefixOf ('{' :: p) (c :: cs) = true) : c = '{' := by
  rw [List.isPrefixOf_cons₂] at h
  have := (Bool.and_eq_true _ _).mp h
  exact (beq_iff_eq.mp this.1).symm

/-- Counterexample to C9 as stated: with the template `Hello {{x}}` and an
empty variable mapping (the key `x` is absent), the personalized output
still contains the `{{x}}` placeholder verbatim — it is not replaced by
the empty string (`Hello `), because the source iterates only over the
entries present in the mapping. -/
theorem C9_counterexample :
    personalizeTemplate
        ['H', 'e', 'l', 'l', 'o', ' ', '{', '{', 'x', '}', '}'] [] =
      ['H', 'e', 'l', 'l', 'o', ' ', '{', '{', 'x', '}', '}'] ∧
    hasSubstr (placeholder ['x'])
        (personalizeTemplate
          ['H', 'e', 'l', 'l', 'o', ' ', '{', '{', 'x', '}', '}'] []) = true ∧
    personalizeTemplate
        ['H', 'e', 'l', 'l', 'o', ' ', '{', '{', 'x', '}', '}'] [] ≠
      ['H', 'e', 'l', 'l', 'o', ' '] := by
  refine ⟨rfl, by decide, by decide⟩

/-- C8: the claim says `recordOpen` increments the recipient's open count
unconditionally and advances the status to `opened` only from at or
before `delivered`, so two successive calls add 2 to the counter and
leave status `opened`.  On the code this fails: the update document uses
`$Inc`, which is not a MongoDB update operator, so the whole update is
rejected and `trackOpen` returns `success: false` leaving the document
untouched — after two calls for a valid token the open count is still 5
(not 7) and the status still `clicked`.  (Had the operator been spelled
`$inc`, the unguarded `$set` would also have regressed `clicked` to
`opened`, contradicting the claim's progression rule.) -/
theorem C8_theorem :
    (trackOpen trackFixture trackFixtureId).1.success = false ∧
    (trackOpen trackFixture trackFixtureId).2 = trackFixture ∧
    (trackOpen (trackOpen trackFixture trackFixtureId).2 trackFixtureId).2 =
      trackFixture ∧
    ((trackOpen (trackOpen trackFixture trackFixtureId).2 trackFixtureId).2.emails.map
        (fun e => (e.openCount, e.status))) = [(5, .clicked)] := by
  decide

/-- Counterexample to C10 as stated: on a token that fails to parse
(fewer than three underscore-separated segments), `trackOpen` returns
`success: false` to the caller — not a success result as the claim
asserts.  (The controller returns the service's result object directly.) -/
theorem C10_counterexample :
    (trackOpen trackFixture ['b', 'a', 'd']).1.success = false ∧
    (trackOpen trackFixture ['b', 'a', 'd']).2 = trackFixture := by
  decide

/-- C10 (amended): the open and click ingest operations never propagate a
parse failure to the caller: when the tracking token fails to parse, the
error is caught and logged, nothing else happens (the campaign document
is unchanged), and the caller receives a well-formed result object — but
with `success: false`, not a success result. -/
theorem C10_theorem (db : TrackCampaign) (tid lnk : List Char)
    (h : parseTrackingId tid = .error ()) :
    trackOpen db tid = ({ success := false }, db) ∧
    trackingClick db tid lnk = ({ success := false }, db) := by
  constructor
  · unfold trackOpen
    rw [h]
  · unfold trackingClick
    rw [h]

/-- Witness for C10 at a concrete malformed token. -/
theorem C10_witness :
    parseTrackingId ['x', 'y'] = .error () ∧
    (trackOpen trackFixture ['x', 'y'] = ({ success := false }, trackFixture) ∧
      trackingClick trackFixture ['x', 'y'] ['l'] =
        ({ success := false }, trackFixture)) :=
  ⟨rfl, C10_theorem trackFixture ['x', 'y'] ['l'] rfl⟩

/-- Counterexample to C1 as stated: in the scenario (dailyLimit 2, three
pending recipients, transport succeeding), the third admission is indeed
denied with the daily-limit reason, but the pass does not abort: the
third recipient is marked `failed` (not left `pending`) and the campaign
ends the pass `completed` (not `running`), because `sendEmail` catches
the denial and returns it as an ordinary failed result which the loop
records like any transport failure. -/
theorem C1_counterexample :
    (dailyLimitRun.world.campaign.emails.map (fun e => e.status)) =
      [.sent, .sent, .failed] ∧
    dailyLimitRun.world.campaign.status = .completed ∧
    ¬ ((dailyLimitRun.world.campaign.emails.map (fun e => e.status)) =
        [.sent, .sent, .pending] ∧
       dailyLimitRun.world.campaign.status = .running) := by
  decide

/-- C1 (amended): with `dailyLimit = 2` and three pending recipients
whose transport sends would succeed, the first two sends succeed and
bring `sentToday` to 2; the third attempt's admission is denied with the
daily-limit reason, but the denial is swallowed by `sendEmail`'s catch
block and converted into a failed send result: the loop continues, the
third recipient is marked `failed` carrying the daily-limit error,
`sentToday` is incremented to 3 by the failure path, and — since no
recipient remains pending — the campaign is marked `completed` with
`completedAt` recorded.  No error is surfaced to the caller (the pass
returns normally, with no continuation scheduled). -/
theorem C1_theorem :
    (dailyLimitRun.world.campaign.emails.map (fun e => e.status)) =
      [.sent, .sent, .failed] ∧
    (dailyLimitRun.world.campaign.emails.map (fun e => e.error)) =
      [none, none, some .dailyLimitExceeded] ∧
    dailyLimitRun.world.campaign.status = .completed ∧
    dailyLimitRun.world.campaign.completedAt = true ∧
    dailyLimitRun.world.campaign.emailsSent = 3 ∧
    dailyLimitRun.world.campaign.emailsDelivered = 2 ∧
    dailyLimitRun.world.campaign.emailsFailed = 1 ∧
    dailyLimitRun.world.smtp.emailsSentToday = 3 ∧
    dailyLimitRun.attempts = [0, 1, 2] ∧
    dailyLimitRun.scheduled = none := by
  decide

/-- C2: the claim says every entry into the pass — including the
continuation scheduled after an hourly-limit stop — recomputes the
selection from the recipients' current stored status, so a recipient in
a terminal status is never reselected.  On the code this fails: the
continuation closes over the stale in-memory snapshot.  Here recipient 0
is stored as `sent` after the first pass, yet the continuation (whose
snapshot still lists both recipients as pending) selects and sends
recipient 0 again — `emailsSent` reaches 2 with recipient 1 still
`pending` and starved behind the repeated send. -/
theorem C2_theorem :
    hourlyCapPassOne.attempts = [0] ∧
    hourlyCapPassOne.scheduled = some hourlyCapCampaign ∧
    (hourlyCapPassOne.world.campaign.emails.map (fun e => e.status)) =
      [.sent, .pending] ∧
    hourlyCapPassTwo.attempts = [0] ∧
    hourlyCapPassTwo.world.campaign.emailsSent = 2 ∧
    (hourlyCapPassTwo.world.campaign.emails.map (fun e => e.status)) =
      [.sent, .pending] := by
  decide

/-- Counterexample to C3 as stated: with the stored campaign already
`paused` (a pause that landed right after the pass snapshot was taken),
the loop still attempts both recipients — it never checks campaign
status between sends — and, with no recipient left pending, even marks
the paused campaign `completed`.  The claim would require the pass to
attempt nothing and leave both recipients `pending`. -/
theorem C3_counterexample :
    pauseCampaign twoPendingCampaign =
      .ok { twoPendingCampaign with status := .paused } ∧
    pausedMidBatchRun.attempts = [0, 1] ∧
    (pausedMidBatchRun.world.campaign.emails.map (fun e => e.status)) =
      [.sent, .sent] ∧
    pausedMidBatchRun.world.campaign.status = .completed := by
  refine ⟨rfl, by decide, by decide, by decide⟩

/-- Counterexample to C4 as stated: a full pass over one pending
recipient whose transport send fails ends with zero pending recipients
and status `completed`, but `emailsSent + emailsFailed = 2 ≠ 1 =
totalEmails`, because the loop's `$inc` bumps `emailsSent` on every
processed recipient — failures included. -/
theorem C4_counterexample :
    oneFailedRun.world.campaign.status = .completed ∧
    oneFailedRun.world.campaign.emailsSent = 1 ∧
    oneFailedRun.world.campaign.emailsFailed = 1 ∧
    oneFailedRun.world.campaign.totalEmails = 1 ∧
    oneFailedRun.world.campaign.emailsSent +
        oneFailedRun.world.campaign.emailsFailed ≠
      oneFailedRun.world.campaign.totalEmails := by
  decide

/-- C5: the claim says that when `lastResetDate` is an earlier day,
`sentToday` is reset before the daily-limit comparison, so the first
attempt of a new day is never denied.  On the code this fails: the reset
is written to the database, but the comparison reads the stale in-memory
`config.emailsSentToday`; with yesterday at the limit, the first attempt
of day 5 is denied with the daily-limit reason — and the catch path then
increments the freshly reset counter to 1 without any send. -/
theorem C5_theorem :
    (sendEmail maxedYesterdaySmtp [] { day := 5, hour := 0 } true 0).1.success =
      false ∧
    (sendEmail maxedYesterdaySmtp [] { day := 5, hour := 0 } true 0).1.error =
      some .dailyLimitExceeded ∧
    (sendEmail maxedYesterdaySmtp [] { day := 5, hour := 0 } true 0).2.1.lastResetDate =
      some 5 ∧
    (sendEmail maxedYesterdaySmtp [] { day := 5, hour := 0 } true 0).2.1.emailsSentToday =
      1 := by
  decide

/-- Counterexample to C6 as stated: on a denied admission (daily limit
already reached), the counters are still incremented — the denial throw
lands in the same catch block as a transport failure, so
`emailsSentToday` moves from 1 to 2 and the hour bucket records a
failure, although no successful or failed transport attempt took
place. -/
theorem C6_counterexample :
    (sendEmail atDailyLimitSmtp [] { day := 0, hour := 3 } true 0).1.error =
      some .dailyLimitExceeded ∧
    (sendEmail atDailyLimitSmtp [] { day := 0, hour := 3 } true 0).2.1.emailsSentToday =
      2 ∧
    (getBucket (sendEmail atDailyLimitSmtp [] { day := 0, hour := 3 } true 0).2.2
        3).failed = 1 := by
  decide

theorem getBucket_setBucket (stats : Buckets) (h : Nat) (v : HourStats) :
    getBucket (setBucket stats h v) h = v := by
  induction stats with
  | nil => simp [setBucket, getBucket]
  | cons p rest ih =>
    obtain ⟨k, w⟩ := p
    by_cases hk : k = h
    · simp [setBucket, getBucket, hk]
    · simp [setBucket, getBucket, hk, ih]

theorem checkAndUpdateRateLimit_fst_of_today (config : SMTPConfig)
    (stats : Buckets) (now : Time) (h : config.lastResetDate = some now.day) :
    (checkAndUpdateRateLimit config stats now).1 = config := by
  unfold checkAndUpdateRateLimit
  simp only [h, Option.getD_some, ne_eq, not_true_eq_false, if_false,
    ite_self]
  split
  · rfl
  · split <;> rfl

/-- C6 (amended): for every `sendEmail` call made on the accounting day of
the config's `lastResetDate` (so no reset interferes), the daily counter
`emailsSentToday` is incremented by exactly 1 — on success, on transport
failure, and also on a denied admission, since the denial throw is
caught by the same failure path; and the hourly bucket's `sent` counter
(the one the hourly rate check reads) is incremented only when the send
succeeds, the `failed` counter only otherwise. -/
theorem C6_theorem (config : SMTPConfig) (stats : Buckets) (now : Time)
    (transportOk : Bool) (msgId : Nat)
    (h : config.lastResetDate = some now.day) :
    (sendEmail config stats now transportOk msgId).2.1.emailsSentToday =
      config.emailsSentToday + 1 ∧
    (getBucket (sendEmail config stats now transportOk msgId).2.2 now.hour).sent =
      (getBucket stats now.hour).sent +
        (if (sendEmail config stats now transportOk msgId).1.success then 1 else 0) ∧
    (getBucket (sendEmail config stats now transportOk msgId).2.2 now.hour).failed =
      (getBucket stats now.hour).failed +
        (if (sendEmail config stats now transportOk msgId).1.success then 0 else 1) := by
  have hshape : (sendEmail config stats now transportOk msgId).2.1 =
      updateSMTPStats config (sendEmail config stats now transportOk msgId).1.success ∧
      (sendEmail config stats now transportOk msgId).2.2 =
        updateDailyStats stats now
          (sendEmail config stats now transportOk msgId).1.success := by
    have hfst := checkAndUpdateRateLimit_fst_of_today config stats now h
    unfold sendEmail
    rcases hc : checkAndUpdateRateLimit config stats now with ⟨db, deny⟩
    rw [hc] at hfst
    simp only at hfst
    subst db
    by_cases hact : config.isActive
    · simp only [hact, not_true_eq_false, if_false]
      cases deny with
      | some e => exact ⟨rfl, rfl⟩
      | none => cases transportOk <;> exact ⟨rfl, rfl⟩
    · simp only [hact, not_false_eq_true, if_true]
      exact ⟨rfl, rfl⟩
  obtain ⟨h1, h2⟩ := hshape
  rw [h1, h2]
  refine ⟨by simp [updateSMTPStats], ?_, ?_⟩ <;>
    cases hsucc : (sendEmail config stats now transportOk msgId).1.success <;>
      simp [updateDailyStats, getBucket_setBucket]

/-- Witness for C6 at a same-day call with no limits enabled. -/
theorem C6_witness :
    unlimitedSmtp.lastResetDate = some (Time.mk 0 2).day ∧
    ((sendEmail unlimitedSmtp [] (Time.mk 0 2) true 0).2.1.emailsSentToday =
        unlimitedSmtp.emailsSentToday + 1 ∧
      (getBucket (sendEmail unlimitedSmtp [] (Time.mk 0 2) true 0).2.2
          (Time.mk 0 2).hour).sent =
        (getBucket [] (Time.mk 0 2).hour).sent +
          (if (sendEmail unlimitedSmtp [] (Time.mk 0 2) true 0).1.success then 1
           else 0) ∧
      (getBucket (sendEmail unlimitedSmtp [] (Time.mk 0 2) true 0).2.2
          (Time.mk 0 2).hour).failed =
        (getBucket [] (Time.mk 0 2).hour).failed +
          (if (sendEmail unlimitedSmtp [] (Time.mk 0 2) true 0).1.success then 0
           else 1)) :=
  ⟨rfl, C6_theorem unlimitedSmtp [] (Time.mk 0 2) true 0 rfl⟩

theorem recordSendOutcome_status (db : CampaignDoc) (s : CampaignStatus)
    (a : Nat) (res : SendResult) :
    recordSendOutcome { db with status := s } a res =
      { recordSendOutcome db a res with status := s } := by
  unfold recordSendOutcome
  by_cases hc : db.emails.any (fun e => e.addr = a) = true
  · simp only [hc]
    rfl
  · simp only [hc]
    rfl

theorem runPending_status (snap : CampaignDoc) (cap : Nat) (now : Time)
    (tr : Nat → Bool) :
    ∀ (post : List EmailEntry) (w : DispatchWorld) (k idx : Nat)
      (acc : List Nat) (s : CampaignStatus),
      runPending snap cap now tr post
          { w with campaign := { w.campaign with status := s } } k idx acc =
        withCampaignStatus (runPending snap cap now tr post w k idx acc) s := by
  intro post
  induction post with
  | nil => intro w k idx acc s; rfl
  | cons e rest ih =>
    intro w k idx acc s
    by_cases hcap : cap ≤ k
    · simp only [runPending, if_pos hcap]
      rfl
    · simp only [runPending, if_neg hcap]
      rw [recordSendOutcome_status]
      exact ih
        { campaign := recordSendOutcome w.campaign e.addr
            (sendEmail w.smtp w.stats now (tr idx) idx).1,
          smtp := (sendEmail w.smtp w.stats now (tr idx) idx).2.1,
          stats := (sendEmail w.smtp w.stats now (tr idx) idx).2.2 }
        (k + 1) (idx + 1) (e.addr :: acc) s

theorem withCampaignStatus_attempts (r : PassResult) (s : CampaignStatus) :
    (withCampaignStatus r s).attempts = r.attempts := rfl

theorem withCampaignStatus_scheduled (r : PassResult) (s : CampaignStatus) :
    (withCampaignStatus r s).scheduled = r.scheduled := rfl

theorem withCampaignStatus_emails (r : PassResult) (s : CampaignStatus) :
    (withCampaignStatus r s).world.campaign.emails = r.world.campaign.emails := rfl

theorem withCampaignStatus_smtp (r : PassResult) (s : CampaignStatus) :
    (withCampaignStatus r s).world.smtp = r.world.smtp := rfl

theorem withCampaignStatus_stats (r : PassResult) (s : CampaignStatus) :
    (withCampaignStatus r s).world.stats = r.world.stats := rfl

theorem withCampaignStatus_status (r : PassResult) (s : CampaignStatus) :
    (withCampaignStatus r s).world.campaign.status = s := rfl

/-- C3: the claim says the dispatch loop checks the campaign's stored
status before every send and begins no new send once it is `paused`.
The loop contains no such check (see `C3_counterexample`), and this
theorem states what is true instead: a dispatch pass behaves identically
whatever the stored campaign status is — the same recipients are
attempted, the same recipient states, SMTP counters and buckets result,
and the same continuation is scheduled; the final stored status is
either `completed` (when the pass empties the pending set — even while
paused) or whatever status the store already held.  In particular a
pause taking effect mid-batch stops nothing. -/
theorem C3_theorem (snap : CampaignDoc) (w : DispatchWorld) (now : Time)
    (tr : Nat → Bool) (idx : Nat) (s : CampaignStatus) :
    (processCampaignEmails snap
        { w with campaign := { w.campaign with status := s } } now tr idx).attempts =
      (processCampaignEmails snap w now tr idx).attempts ∧
    (processCampaignEmails snap
        { w with campaign := { w.campaign with status := s } } now tr idx).scheduled =
      (processCampaignEmails snap w now tr idx).scheduled ∧
    (processCampaignEmails snap
        { w with campaign := { w.campaign with status := s } } now tr
        idx).world.campaign.emails =
      (processCampaignEmails snap w now tr idx).world.campaign.emails ∧
    (processCampaignEmails snap
        { w with campaign := { w.campaign with status := s } } now tr
        idx).world.smtp =
      (processCampaignEmails snap w now tr idx).world.smtp ∧
    (processCampaignEmails snap
        { w with campaign := { w.campaign with status := s } } now tr
        idx).world.stats =
      (processCampaignEmails snap w now tr idx).world.stats ∧
    ((processCampaignEmails snap
        { w with campaign := { w.campaign with status := s } } now tr
        idx).world.campaign.status = .completed ∨
     (processCampaignEmails snap
        { w with campaign := { w.campaign with status := s } } now tr
        idx).world.campaign.status = s) := by
  simp only [processCampaignEmails]
  by_cases hlen : (snap.emails.filter (fun e => e.status == .pending)).length = 0
  · simp only [hlen, if_pos]
    simp
  · simp only [hlen, if_neg, if_false]
    rw [runPending_status]
    simp only [withCampaignStatus_emails]
    by_cases hrem :
        ((runPending snap
            (if snap.settings.maxEmailsPerHour = 0 then 100
             else snap.settings.maxEmailsPerHour) now tr
            (snap.emails.filter (fun e => e.status == .pending)) w 0 idx
            []).world.campaign.emails.filter
          (fun e => e.status == .pending)).length = 0
    · simp only [hrem, if_pos]
      simp [withCampaignStatus_attempts, withCampaignStatus_scheduled,
        withCampaignStatus_emails, withCampaignStatus_smtp,
        withCampaignStatus_stats]
    · simp only [hrem, if_neg, if_false]
      simp [withCampaignStatus_attempts, withCampaignStatus_scheduled,
        withCampaignStatus_emails, withCampaignStatus_smtp,
        withCampaignStatus_stats, withCampaignStatus_status]

theorem countStatus_cons (s : RecipientStatus) (x : EmailEntry)
    (l : List EmailEntry) :
    countStatus s (x :: l) =
      countStatus s l + (if x.status = s then 1 else 0) := by
  by_cases h : x.status = s
  · simp [countStatus, List.filter_cons, h]
  · simp [countStatus, List.filter_cons, h]

theorem updateEmailInList_first (a : Nat) (f : EmailEntry → EmailEntry) :
    ∀ (pre : List EmailEntry) (e : EmailEntry) (post : List EmailEntry),
      e.addr = a → (∀ x ∈ pre, x.addr ≠ a) →
      updateEmailInList (pre ++ e :: post) a f = pre ++ f e :: post := by
  intro pre
  induction pre with
  | nil =>
    intro e post he _
    simp [updateEmailInList, he]
  | cons x xs ih =>
    intro e post he hpre
    have hx : x.addr ≠ a := hpre x (List.mem_cons_self x xs)
    simp only [List.cons_append, updateEmailInList, if_neg hx]
    rw [List.append_eq, ih e post he (fun y hy => hpre y (List.mem_cons_of_mem x hy))]

theorem recordSendOutcome_found (db : CampaignDoc) (pre post : List EmailEntry)
    (e : EmailEntry) (res : SendResult) (hdb : db.emails = pre ++ e :: post)
    (hpre : ∀ x ∈ pre, x.addr ≠ e.addr) :
    ∃ e' : EmailEntry,
      recordSendOutcome db e.addr res =
        { db with
          emails := pre ++ e' :: post,
          emailsSent := db.emailsSent + 1,
          emailsDelivered := if res.success then db.emailsDelivered + 1
            else db.emailsDelivered,
          emailsFailed := if res.success then db.emailsFailed
            else db.emailsFailed + 1,
          lastEmailSentAt := true } ∧
      e'.addr = e.addr ∧
      e'.status = (if res.success then .sent else .failed) := by
  have hany : db.emails.any (fun x => x.addr = e.addr) = true := by
    rw [hdb]
    exact List.any_eq_true.mpr ⟨e, by simp, by simp⟩
  refine ⟨{ e with
      status := if res.success then .sent else .failed,
      sentAtSet := true,
      messageId := match res.messageId with
        | some m => some m
        | none => e.messageId,
      error := match res.error with
        | some x => some x
        | none => e.error }, ?_, rfl, rfl⟩
  unfold recordSendOutcome
  rw [if_pos hany, hdb,
    updateEmailInList_first e.addr _ pre e post rfl hpre]

theorem runPending_spec (snap : CampaignDoc) (cap : Nat) (now : Time)
    (tr : Nat → Bool) :
    ∀ (post pre : List EmailEntry) (w : DispatchWorld) (k idx : Nat)
      (acc : List Nat),
      w.campaign.emails = pre ++ post →
      (∀ e ∈ post, e.status = .pending) →
      (∀ x ∈ pre, ∀ y ∈ post, x.addr ≠ y.addr) →
      (post.map (fun e => e.addr)).Nodup →
      k + post.length ≤ cap →
      ∃ post' : List EmailEntry,
        (runPending snap cap now tr post w k idx acc).world.campaign.emails =
          pre ++ post' ∧
        post'.length = post.length ∧
        (∀ e ∈ post', e.status = .sent ∨ e.status = .failed) ∧
        (runPending snap cap now tr post w k idx acc).world.campaign.emailsSent =
          w.campaign.emailsSent + post.length ∧
        (runPending snap cap now tr post w k idx
            acc).world.campaign.emailsDelivered =
          w.campaign.emailsDelivered + countStatus .sent post' ∧
        (runPending snap cap now tr post w k idx acc).world.campaign.emailsFailed =
          w.campaign.emailsFailed + countStatus .failed post' ∧
        countStatus .sent post' + countStatus .failed post' = post.length ∧
        (runPending snap cap now tr post w k idx acc).world.campaign.status =
          w.campaign.status ∧
        (runPending snap cap now tr post w k idx acc).world.campaign.totalEmails =
          w.campaign.totalEmails ∧
        (runPending snap cap now tr post w k idx acc).scheduled = none := by
  intro post
  induction post with
  | nil =>
    intro pre w k idx acc hw _ _ _ _
    exact ⟨[], by simpa using hw, rfl, by simp, by simp [runPending],
      by simp [runPending, countStatus], by simp [runPending, countStatus],
      by simp [countStatus], rfl, rfl, rfl⟩
  | cons e rest ih =>
    intro pre w k idx acc hw hpend hsep hnod hcap
    have hcap' : ¬ cap ≤ k := by
      simp only [List.length_cons] at hcap; omega
    simp only [runPending, if_neg hcap']
    obtain ⟨e', hrw, haddr, hstat⟩ :=
      recordSendOutcome_found w.campaign pre rest e
        (sendEmail w.smtp w.stats now (tr idx) idx).1 hw
        (fun x hx => hsep x hx e (List.mem_cons_self e rest))
    rw [hrw]
    have hnod' : (rest.map (fun x => x.addr)).Nodup := by
      simp only [List.map_cons, List.nodup_cons] at hnod
      exact hnod.2
    have hhead : ∀ y ∈ rest, e.addr ≠ y.addr := by
      intro y hy hee
      simp only [List.map_cons, List.nodup_cons] at hnod
      exact hnod.1 (hee ▸ List.mem_map_of_mem (fun x => x.addr) hy)
    obtain ⟨post'', p1, p2, p3, p4, p5, p6, p7, p8, p9, p10⟩ :=
      ih (pre ++ [e'])
        { campaign :=
            { w.campaign with
              emails := pre ++ e' :: rest,
              emailsSent := w.campaign.emailsSent + 1,
              emailsDelivered :=
                if (sendEmail w.smtp w.stats now (tr idx) idx).1.success then
                  w.campaign.emailsDelivered + 1
                else w.campaign.emailsDelivered,
              emailsFailed :=
                if (sendEmail w.smtp w.stats now (tr idx) idx).1.success then
                  w.campaign.emailsFailed
                else w.campaign.emailsFailed + 1,
              lastEmailSentAt := true },
          smtp := (sendEmail w.smtp w.stats now (tr idx) idx).2.1,
          stats := (sendEmail w.smtp w.stats now (tr idx) idx).2.2 }
        (k + 1) (idx + 1) (e.addr :: acc)
        (by simp)
        (fun y hy => hpend y (List.mem_cons_of_mem e hy))
        (by
          intro x hx y hy
          rcases List.mem_append.mp hx with hx' | hx'
          · exact hsep x hx' y (List.mem_cons_of_mem e hy)
          · have : x = e' := by simpa using hx'
            subst this
            rw [haddr]
            exact hhead y hy)
        hnod'
        (by simp only [List.length_cons] at hcap; omega)
    refine ⟨e' :: post'', ?_, ?_, ?_, ?_, ?_, ?_, ?_, ?_, ?_, ?_⟩
    · rw [p1]; simp
    · simp [p2]
    · intro x hx
      rcases List.mem_cons.mp hx with hx' | hx'
      · subst hx'
        rw [hstat]
        by_cases hs : (sendEmail w.smtp w.stats now (tr idx) idx).1.success
        · exact Or.inl (by rw [if_pos hs])
        · exact Or.inr (by rw [if_neg hs])
      · exact p3 x hx'
    · dsimp only at p4
      rw [p4]
      simp only [List.length_cons]
      omega
    · dsimp only at p5
      rw [p5, countStatus_cons, hstat]
      by_cases hs : (sendEmail w.smtp w.stats now (tr idx) idx).1.success
      · rw [if_pos hs, if_pos hs, if_pos rfl]
        omega
      · rw [if_neg hs, if_neg hs,
          if_neg (by decide : ¬ (RecipientStatus.failed = .sent))]
        omega
    · dsimp only at p6
      rw [p6, countStatus_cons, hstat]
      by_cases hs : (sendEmail w.smtp w.stats now (tr idx) idx).1.success
      · rw [if_pos hs, if_pos hs,
          if_neg (by decide : ¬ (RecipientStatus.sent = .failed))]
        omega
      · rw [if_neg hs, if_neg hs, if_pos rfl]
        omega
    · rw [countStatus_cons, countStatus_cons, hstat]
      simp only [List.length_cons]
      by_cases hs : (sendEmail w.smtp w.stats now (tr idx) idx).1.success
      · rw [if_pos hs, if_pos rfl,
          if_neg (by decide : ¬ (RecipientStatus.sent = .failed))]
        omega
      · rw [if_neg hs, if_pos rfl,
          if_neg (by decide : ¬ (RecipientStatus.failed = .sent))]
        omega
    · dsimp only at p8
      rw [p8]
    · dsimp only at p9
      rw [p9]
    · exact p10

/-- C4 (amended): when a dispatch pass entered on a fresh snapshot (all
recipients pending, aggregate counters zero, distinct addresses, batch
within the hourly cap) processes every recipient, the campaign is marked
`completed` with `completedAt` recorded; but `emailsSent` counts every
processed attempt — successes and failures alike — so `emailsSent =
totalEmails` and `emailsDelivered + emailsFailed = totalEmails` (not
`emailsSent + emailsFailed = totalEmails`, which fails whenever a send
fails); `emailsDelivered` equals the number of recipients whose final
status is `sent` and `emailsFailed` the number whose final status is
`failed`. -/
theorem C4_theorem (w : DispatchWorld) (now : Time) (tr : Nat → Bool) (idx : Nat)
    (hall : ∀ e ∈ w.campaign.emails, e.status = .pending)
    (hnodup : (w.campaign.emails.map (fun e => e.addr)).Nodup)
    (hsent : w.campaign.emailsSent = 0)
    (hdel : w.campaign.emailsDelivered = 0)
    (hfail : w.campaign.emailsFailed = 0)
    (htot : w.campaign.totalEmails = w.campaign.emails.length)
    (hcap : w.campaign.emails.length ≤
      (if w.campaign.settings.maxEmailsPerHour = 0 then 100
       else w.campaign.settings.maxEmailsPerHour)) :
    (processCampaignEmails w.campaign w now tr idx).world.campaign.status =
      .completed ∧
    (processCampaignEmails w.campaign w now tr idx).world.campaign.completedAt =
      true ∧
    (processCampaignEmails w.campaign w now tr idx).world.campaign.emailsSent =
      w.campaign.totalEmails ∧
    (processCampaignEmails w.campaign w now tr idx).world.campaign.emailsDelivered +
        (processCampaignEmails w.campaign w now tr idx).world.campaign.emailsFailed =
      w.campaign.totalEmails ∧
    (processCampaignEmails w.campaign w now tr idx).world.campaign.emailsDelivered =
      countStatus .sent
        (processCampaignEmails w.campaign w now tr idx).world.campaign.emails ∧
    (processCampaignEmails w.campaign w now tr idx).world.campaign.emailsFailed =
      countStatus .failed
        (processCampaignEmails w.campaign w now tr idx).world.campaign.emails := by
  have hfilter : w.campaign.emails.filter (fun e => e.status == .pending) =
      w.campaign.emails :=
    List.filter_eq_self.mpr (fun a ha => by rw [hall a ha]; rfl)
  simp only [processCampaignEmails]
  rw [hfilter]
  by_cases hemp : w.campaign.emails.length = 0
  · rw [if_pos hemp]
    have hnil : w.campaign.emails = [] := List.eq_nil_of_length_eq_zero hemp
    refine ⟨rfl, rfl, ?_, ?_, ?_, ?_⟩
    · dsimp only; omega
    · dsimp only; omega
    · dsimp only; rw [hnil, hdel]; rfl
    · dsimp only; rw [hnil, hfail]; rfl
  · rw [if_neg hemp]
    obtain ⟨post', q1, q2, q3, q4, q5, q6, q7, q8, q9, q10⟩ :=
      runPending_spec w.campaign
        (if w.campaign.settings.maxEmailsPerHour = 0 then 100
         else w.campaign.settings.maxEmailsPerHour) now tr
        w.campaign.emails [] w 0 idx [] (by simp) hall (by simp) hnodup
        (by simpa using hcap)
    have hpost' : post'.filter (fun e => e.status == .pending) = [] :=
      List.filter_eq_nil_iff.mpr (fun a ha => by
        rcases q3 a ha with h | h <;> simp [h])
    have hrem : ((runPending w.campaign
        (if w.campaign.settings.maxEmailsPerHour = 0 then 100
         else w.campaign.settings.maxEmailsPerHour) now tr
        w.campaign.emails w 0 idx []).world.campaign.emails.filter
          (fun e => e.status == .pending)).length = 0 := by
      rw [q1]
      simp only [List.nil_append]
      rw [hpost']
      rfl
    rw [if_pos hrem]
    refine ⟨rfl, rfl, ?_, ?_, ?_, ?_⟩
    · dsimp only; omega
    · dsimp only; omega
    · dsimp only
      rw [q5, q1]
      simp only [List.nil_append]
      omega
    · dsimp only
      rw [q6, q1]
      simp only [List.nil_append]
      omega

/-- Witness for C4 at the two-recipient fixture with one success and one
failure. -/
theorem C4_witness :
    ((∀ e ∈ mixedWorld.campaign.emails, e.status = .pending) ∧
      (mixedWorld.campaign.emails.map (fun e => e.addr)).Nodup ∧
      mixedWorld.campaign.emailsSent = 0 ∧
      mixedWorld.campaign.emailsDelivered = 0 ∧
      mixedWorld.campaign.emailsFailed = 0 ∧
      mixedWorld.campaign.totalEmails = mixedWorld.campaign.emails.length ∧
      mixedWorld.campaign.emails.length ≤
        (if mixedWorld.campaign.settings.maxEmailsPerHour = 0 then 100
         else mixedWorld.campaign.settings.maxEmailsPerHour)) ∧
    ((processCampaignEmails mixedWorld.campaign mixedWorld (Time.mk 0 0)
        firstOnlyTr 0).world.campaign.status = .completed ∧
      (processCampaignEmails mixedWorld.campaign mixedWorld (Time.mk 0 0)
        firstOnlyTr 0).world.campaign.completedAt = true ∧
      (processCampaignEmails mixedWorld.campaign mixedWorld (Time.mk 0 0)
        firstOnlyTr 0).world.campaign.emailsSent =
        mixedWorld.campaign.totalEmails ∧
      (processCampaignEmails mixedWorld.campaign mixedWorld (Time.mk 0 0)
          firstOnlyTr 0).world.campaign.emailsDelivered +
          (processCampaignEmails mixedWorld.campaign mixedWorld (Time.mk 0 0)
            firstOnlyTr 0).world.campaign.emailsFailed =
        mixedWorld.campaign.totalEmails ∧
      (processCampaignEmails mixedWorld.campaign mixedWorld (Time.mk 0 0)
        firstOnlyTr 0).world.campaign.emailsDelivered =
        countStatus .sent
          (processCampaignEmails mixedWorld.campaign mixedWorld (Time.mk 0 0)
            firstOnlyTr 0).world.campaign.emails ∧
      (processCampaignEmails mixedWorld.campaign mixedWorld (Time.mk 0 0)
        firstOnlyTr 0).world.campaign.emailsFailed =
        countStatus .failed
          (processCampaignEmails mixedWorld.campaign mixedWorld (Time.mk 0 0)
            firstOnlyTr 0).world.campaign.emails) :=
  ⟨⟨by decide, by decide, rfl, rfl, rfl, rfl, by decide⟩,
    C4_theorem mixedWorld (Time.mk 0 0) firstOnlyTr 0 (by decide) (by decide)
      rfl rfl rfl rfl (by decide)⟩

theorem expandReplacement_no_dollar (m b a : List Char) :
    ∀ val : List Char, '$' ∉ val → expandReplacement m b a val = val := by
  intro val
  induction val with
  | nil => intro _; rfl
  | cons c rest ih =>
    intro h
    have hc : c ≠ '$' := fun hh => h (hh ▸ List.mem_cons_self c rest)
    cases rest with
    | nil => rfl
    | cons d rest' =>
      simp only [expandReplacement, if_neg hc]
      rw [ih (fun hm => h (List.mem_cons_of_mem c hm))]

theorem replaceAllGo_fuel (pat val : List Char) :
    ∀ f₁ f₂ pre s, s.length ≤ f₁ → s.length ≤ f₂ →
      replaceAllGo pat val f₁ pre s = replaceAllGo pat val f₂ pre s := by
  intro f₁
  induction f₁ with
  | zero =>
    intro f₂ pre s h1 _
    have : s = [] := List.eq_nil_of_length_eq_zero (Nat.le_zero.mp h1)
    subst this
    cases f₂ <;> rfl
  | succ f ih =>
    intro f₂ pre s h1 h2
    cases s with
    | nil => cases f₂ <;> rfl
    | cons c cs =>
      cases f₂ with
      | zero => exact absurd h2 (by simp)
      | succ g =>
        simp only [replaceAllGo]
        have hcs : cs.length ≤ f := by
          simp only [List.length_cons] at h1; omega
        have hcs' : cs.length ≤ g := by
          simp only [List.length_cons] at h2; omega
        have hdrop : (cs.drop (pat.length - 1)).length ≤ cs.length := by
          simp [List.length_drop]
        split
        · rw [ih _ _ _ (Nat.le_trans hdrop hcs) (Nat.le_trans hdrop hcs')]
        · rw [ih _ _ _ hcs hcs']

theorem replaceFrom_pos (pat val pre : List Char) (c : Char) (cs : List Char)
    (h : pat.isPrefixOf (c :: cs) ∧ pat ≠ []) :
    replaceFrom pat val pre (c :: cs) =
      expandReplacement pat pre (cs.drop (pat.length - 1)) val ++
        replaceFrom pat val (pre ++ pat) (cs.drop (pat.length - 1)) := by
  unfold replaceFrom
  simp only [List.length_cons, replaceAllGo, if_pos h]
  congr 1
  exact replaceAllGo_fuel pat val _ _ _ _ (by simp [List.length_drop])
    (Nat.le_refl _)

theorem replaceFrom_neg (pat val pre : List Char) (c : Char) (cs : List Char)
    (h : ¬ (pat.isPrefixOf (c :: cs) ∧ pat ≠ [])) :
    replaceFrom pat val pre (c :: cs) =
      c :: replaceFrom pat val (pre ++ [c]) cs := by
  unfold replaceFrom
  simp only [List.length_cons, replaceAllGo, if_neg h]

theorem replaceFrom_skip (p val : List Char) :
    ∀ s : List Char, '{' ∉ s → ∀ pre t : List Char,
      replaceFrom ('{' :: p) val pre (s ++ t) =
        s ++ replaceFrom ('{' :: p) val (pre ++ s) t := by
  intro s
  induction s with
  | nil => intro _ pre t; simp
  | cons c s' ih =>
    intro hs pre t
    have hc : c ≠ '{' := fun hcc => hs (hcc ▸ List.mem_cons_self c s')
    rw [List.cons_append, replaceFrom_neg _ _ _ _ _ (by
      rintro ⟨hp, -⟩
      exact hc (eq_lbrace_of_isPrefixOf p _ _ hp))]
    rw [ih (fun hm => hs (List.mem_cons_of_mem c hm)) (pre ++ [c]) t]
    simp

theorem replaceFrom_head (p val : List Char) (hval : '$' ∉ val)
    (pre t : List Char) :
    replaceFrom ('{' :: p) val pre (('{' :: p) ++ t) =
      val ++ replaceFrom ('{' :: p) val (pre ++ ('{' :: p)) t := by
  have h := replaceFrom_pos ('{' :: p) val pre '{' (p ++ t)
    ⟨by simp, by simp⟩
  simp only [List.cons_append] at h ⊢
  rw [h]
  simp only [List.length_cons, Nat.succ_sub_one, List.drop_left]
  rw [expandReplacement_no_dollar _ _ _ val hval]

theorem key_block_not_prefix (t : List Char) :
    ∀ k k' : List Char, '}' ∉ k → '}' ∉ k' → k ≠ k' →
      (k ++ ['}', '}']).isPrefixOf (k' ++ '}' :: '}' :: t) = false := by
  intro k
  induction k with
  | nil =>
    intro k' _ hk' hne
    cases k' with
    | nil => exact absurd rfl hne
    | cons b k₂ =>
      have hb : ('}' : Char) ≠ b :=
        fun h => hk' (h ▸ List.mem_cons_self b k₂)
      simp [List.isPrefixOf_cons₂, hb]
  | cons a k₁ ih =>
    intro k' hk hk' hne
    have ha : a ≠ '}' := fun h => hk (h ▸ List.mem_cons_self a k₁)
    cases k' with
    | nil =>
      simp [List.isPrefixOf_cons₂, ha]
    | cons b k₂ =>
      by_cases hab : a = b
      · subst hab
        have hne' : k₁ ≠ k₂ := fun h => hne (by rw [h])
        simp only [List.cons_append, List.isPrefixOf_cons₂_self]
        exact ih k₂ (fun hm => hk (List.mem_cons_of_mem _ hm))
          (fun hm => hk' (List.mem_cons_of_mem _ hm)) hne'
      · simp [List.isPrefixOf_cons₂, hab]

theorem open_block_not_prefix (X k' u : List Char) (hk' : '{' ∉ k') :
    ('{' :: '{' :: X).isPrefixOf ('{' :: (k' ++ '}' :: u)) = false := by
  cases k' with
  | nil => simp [List.isPrefixOf_cons₂]
  | cons c k₂ =>
    have hc : ('{' : Char) ≠ c := fun h => hk' (h ▸ List.mem_cons_self c k₂)
    simp [List.isPrefixOf_cons₂, hc]

theorem replaceFrom_skip_hole (k k' val : List Char)
    (hk : '{' ∉ k ∧ '}' ∉ k) (hk' : '{' ∉ k' ∧ '}' ∉ k') (hne : k ≠ k') :
    ∀ pre t : List Char,
      replaceFrom (placeholder k) val pre (placeholder k' ++ t) =
        placeholder k' ++ replaceFrom (placeholder k) val
          (pre ++ placeholder k') t := by
  intro pre t
  have hshape : placeholder k' ++ t =
      '{' :: '{' :: (k' ++ '}' :: '}' :: t) := by
    simp [placeholder]
  rw [hshape]
  have h1 : (placeholder k).isPrefixOf
      ('{' :: '{' :: (k' ++ '}' :: '}' :: t)) = false := by
    simp only [placeholder, List.isPrefixOf_cons₂_self]
    have := key_block_not_prefix t k k' hk.2 hk'.2 hne
    simpa using this
  rw [replaceFrom_neg _ _ _ _ _ (fun hcon => by
    rw [h1] at hcon
    exact absurd hcon.1 (by simp))]
  have h2 : (placeholder k).isPrefixOf ('{' :: (k' ++ '}' :: '}' :: t)) =
      false := by
    simp only [placeholder]
    exact open_block_not_prefix (k ++ ['}', '}']) k' ('}' :: t) hk'.1
  rw [replaceFrom_neg _ _ _ _ _ (fun hcon => by
    rw [h2] at hcon
    exact absurd hcon.1 (by simp))]
  have h3 := replaceFrom_skip ('{' :: (k ++ ['}', '}'])) val k' hk'.1
    (pre ++ ['{'] ++ ['{']) ('}' :: '}' :: t)
  rw [show (placeholder k) = '{' :: '{' :: (k ++ ['}', '}']) from rfl, h3]
  have hno : ∀ (q : List Char) (d : Char), d ≠ '{' →
      ¬ (('{' :: '{' :: (k ++ ['}', '}'])).isPrefixOf (d :: q) ∧
        ('{' :: '{' :: (k ++ ['}', '}'])) ≠ ([] : List Char)) := by
    rintro q d hd ⟨hp, -⟩
    exact hd (eq_lbrace_of_isPrefixOf _ _ _ hp)
  rw [replaceFrom_neg _ _ _ _ _ (hno _ _ (by decide))]
  rw [replaceFrom_neg _ _ _ _ _ (hno _ _ (by decide))]
  simp [placeholder, List.append_assoc]

theorem replaceFrom_render (k v : List Char) (hk : '{' ∉ k ∧ '}' ∉ k)
    (hvd : '$' ∉ v) :
    ∀ pieces : List TemplatePiece, (∀ p ∈ pieces, PieceOk p) →
      ∀ pre : List Char,
        replaceFrom (placeholder k) v pre (renderPieces pieces) =
          renderPieces (pieces.map (substOnePiece k v)) := by
  intro pieces
  induction pieces with
  | nil => intro _ pre; rfl
  | cons piece rest ih =>
    intro hok pre
    have hok' : ∀ p ∈ rest, PieceOk p :=
      fun p hp => hok p (List.mem_cons_of_mem piece hp)
    cases piece with
    | lit s =>
      have hs : '{' ∉ s := hok (.lit s) (List.mem_cons_self _ rest)
      simp only [renderPieces, List.map_cons, substOnePiece]
      have hskip : replaceFrom (placeholder k) v pre (s ++ renderPieces rest) =
          s ++ replaceFrom (placeholder k) v (pre ++ s) (renderPieces rest) :=
        replaceFrom_skip ('{' :: (k ++ ['}', '}'])) v s hs pre (renderPieces rest)
      rw [hskip, ih hok' (pre ++ s)]
    | hole k' =>
      have hk'ok : '{' ∉ k' ∧ '}' ∉ k' := hok (.hole k') (List.mem_cons_self _ rest)
      by_cases hkk : k' = k
      · subst hkk
        simp only [renderPieces, List.map_cons, substOnePiece, if_pos rfl]
        have hhead : replaceFrom (placeholder k') v pre
            (placeholder k' ++ renderPieces rest) =
              v ++ replaceFrom (placeholder k') v (pre ++ placeholder k')
                (renderPieces rest) :=
          replaceFrom_head ('{' :: (k' ++ ['}', '}'])) v hvd pre (renderPieces rest)
        rw [hhead, ih hok' (pre ++ placeholder k')]
      · simp only [renderPieces, List.map_cons, substOnePiece, if_neg hkk]
        rw [replaceFrom_skip_hole k k' v hk hk'ok
          (fun h => hkk (h.symm)) pre (renderPieces rest)]
        rw [ih hok' (pre ++ placeholder k')]

theorem personalizeTemplate_render (vars : List (List Char × List Char)) :
    ∀ pieces : List TemplatePiece, (∀ p ∈ pieces, PieceOk p) →
      (∀ kv ∈ vars, ('{' ∉ kv.1 ∧ '}' ∉ kv.1) ∧ ('{' ∉ kv.2 ∧ '$' ∉ kv.2)) →
      personalizeTemplate (renderPieces pieces) vars =
        renderPieces
          (vars.foldl (fun ps kv => ps.map (substOnePiece kv.1 kv.2)) pieces) := by
  induction vars with
  | nil => intro pieces _ _; rfl
  | cons kv vars' ih =>
    intro pieces hok hvars
    have hkv := hvars kv (List.mem_cons_self kv vars')
    have hstep : replaceAll (placeholder kv.1) kv.2 (renderPieces pieces) =
        renderPieces (pieces.map (substOnePiece kv.1 kv.2)) :=
      replaceFrom_render kv.1 kv.2 hkv.1 hkv.2.2 pieces hok []
    have hok' : ∀ p ∈ pieces.map (substOnePiece kv.1 kv.2), PieceOk p := by
      intro p hp
      obtain ⟨q, hq, rfl⟩ := List.mem_map.mp hp
      cases q with
      | lit s => exact hok (.lit s) hq
      | hole k' =>
        by_cases h : k' = kv.1
        · simp only [substOnePiece, if_pos h]
          exact hkv.2.1
        · simp only [substOnePiece, if_neg h]
          exact hok (.hole k') hq
    have ih' := ih (pieces.map (substOnePiece kv.1 kv.2)) hok'
      (fun kv' h => hvars kv' (List.mem_cons_of_mem kv h))
    simp only [personalizeTemplate] at ih' ⊢
    simp only [List.foldl_cons]
    rw [hstep]
    exact ih'

theorem applyMapping_nil_map :
    ∀ pieces : List TemplatePiece, pieces.map (applyMapping []) = pieces := by
  intro pieces
  induction pieces with
  | nil => rfl
  | cons p rest ih =>
    cases p <;> simp [applyMapping, lookupVar, ih]

theorem applyMapping_subst (kv : List Char × List Char)
    (vars' : List (List Char × List Char)) (p : TemplatePiece) :
    applyMapping vars' (substOnePiece kv.1 kv.2 p) =
      applyMapping (kv :: vars') p := by
  cases p with
  | lit s => rfl
  | hole k₀ =>
    by_cases h : k₀ = kv.1
    · simp [substOnePiece, applyMapping, lookupVar, h]
    · have h' : kv.1 ≠ k₀ := fun hh => h hh.symm
      simp [substOnePiece, applyMapping, lookupVar, h, h']

theorem foldl_subst_eq_applyMapping :
    ∀ (vars : List (List Char × List Char)) (pieces : List TemplatePiece),
      vars.foldl (fun ps kv => ps.map (substOnePiece kv.1 kv.2)) pieces =
        pieces.map (applyMapping vars) := by
  intro vars
  induction vars with
  | nil =>
    intro pieces
    simp [applyMapping_nil_map]
  | cons kv vars' ih =>
    intro pieces
    simp only [List.foldl_cons]
    rw [ih (pieces.map (substOnePiece kv.1 kv.2)), List.map_map]
    have : ∀ l : List TemplatePiece,
        l.map (applyMapping vars' ∘ substOnePiece kv.1 kv.2) =
          l.map (applyMapping (kv :: vars')) := by
      intro l
      induction l with
      | nil => rfl
      | cons q r ihl =>
        simp only [List.map_cons, ihl, Function.comp_apply,
          applyMapping_subst]
    exact this pieces

/-- C9 (amended): personalization replaces every `{{key}}` occurrence in
the subject and body with `variables[key]` for each key present in the
mapping (first binding wins), and leaves placeholders of absent keys
verbatim — it does not substitute the empty string for them.  Stated for
any template interleaving literal segments with placeholders (segments
free of the opening brace, keys brace-free) and any mapping whose values
are free of the opening brace and of the dollar character (JavaScript
expands dollar patterns in replacement strings, so a value such as a
dollar followed by an ampersand would re-insert the matched placeholder
instead): the result renders the same template with exactly the
present-key holes replaced by their values, and an empty mapping leaves
any template unchanged. -/
theorem C9_theorem (t : List Char) (pieces : List TemplatePiece)
    (vars : List (List Char × List Char))
    (hpieces : ∀ p ∈ pieces, PieceOk p)
    (hvars : ∀ kv ∈ vars, ('{' ∉ kv.1 ∧ '}' ∉ kv.1) ∧ ('{' ∉ kv.2 ∧ '$' ∉ kv.2)) :
    personalizeTemplate t [] = t ∧
    personalizeTemplate (renderPieces pieces) vars =
      renderPieces (pieces.map (applyMapping vars)) := by
  refine ⟨rfl, ?_⟩
  rw [personalizeTemplate_render vars pieces hpieces hvars,
    foldl_subst_eq_applyMapping]

/-- Witness for C9 at a concrete mixed template `A{{x}}B{{y}}` with
mapping `x := v`: the present key `x` is replaced while the absent key
`y` survives verbatim. -/
theorem C9_witness :
    ((∀ p ∈ [TemplatePiece.lit ['A'], TemplatePiece.hole ['x'],
        TemplatePiece.lit ['B'], TemplatePiece.hole ['y']], PieceOk p) ∧
      (∀ kv ∈ [((['x'] : List Char), (['v'] : List Char))],
        ('{' ∉ kv.1 ∧ '}' ∉ kv.1) ∧ ('{' ∉ kv.2 ∧ '$' ∉ kv.2))) ∧
    (personalizeTemplate ['T'] [] = ['T'] ∧
      personalizeTemplate
          (renderPieces [TemplatePiece.lit ['A'], TemplatePiece.hole ['x'],
            TemplatePiece.lit ['B'], TemplatePiece.hole ['y']])
          [(['x'], ['v'])] =
        renderPieces
          ([TemplatePiece.lit ['A'], TemplatePiece.hole ['x'],
            TemplatePiece.lit ['B'], TemplatePiece.hole ['y']].map
            (applyMapping [(['x'], ['v'])]))) :=
  ⟨⟨by decide, by decide⟩,
    C9_theorem ['T']
      [TemplatePiece.lit ['A'], TemplatePiece.hole ['x'],
        TemplatePiece.lit ['B'], TemplatePiece.hole ['y']]
      [(['x'], ['v'])] (by decide) (by decide)⟩
